import Mathlib

/-!
Verification of the `ascii-assets` crate: colour quantization
(`src/colour.rs`), the per-cell binary codec, and the sprite/video
container format (`src/lib.rs`), shallowly embedded in Lean.

Machine integers are modelled as `Nat` (with explicit wrap-around
`% 2^w` where the Rust code can overflow); byte streams are `List Nat`
whose elements are `< 256`; fallible operations return `Option`.
-/

namespace AsciiAssets

/-! ## Colour (`src/colour.rs`) -/

/-- The `Color` struct: `reset` flag plus an RGB triple (channels are `u8`,
modelled as `Nat` with a `< 256` validity predicate). -/
structure Color where
  reset : Bool
  rgb : Nat × Nat × Nat
deriving DecidableEq, Repr

/-- `Color::reset()`. -/
def Color.resetColor : Color := ⟨true, (0, 0, 0)⟩

/-- `Color::rgb(r, g, b)`. -/
def Color.mkRgb (r g b : Nat) : Color := ⟨false, (r, g, b)⟩

/-- The fixed lookup table for ANSI codes `0..=15` in `ansi256_to_rgb`. -/
def ansi16Table : List (Nat × Nat × Nat) :=
  [(0, 0, 0), (128, 0, 0), (0, 128, 0), (128, 128, 0),
   (0, 0, 128), (128, 0, 128), (0, 128, 128), (192, 192, 192),
   (128, 128, 128), (255, 0, 0), (0, 255, 0), (255, 255, 0),
   (0, 0, 255), (255, 0, 255), (0, 255, 255), (255, 255, 255)]

/-- The closure `to_rgb` in the cube branch of `ansi256_to_rgb`:
ordinate `0` maps to `0`, ordinate `v > 0` maps to `55 + v * 40`. -/
def cubeVal (v : Nat) : Nat := if v = 0 then 0 else 55 + v * 40

/-- `Color::ansi256_to_rgb(code)`: the three `match` ranges
`0..=15`, `16..=231`, `232..=255` of the source. -/
def ansi256_to_rgb (code : Nat) : Nat × Nat × Nat :=
  if code ≤ 15 then
    ansi16Table.getD code (0, 0, 0)
  else if code ≤ 231 then
    let c := code - 16
    (cubeVal (c / 36), cubeVal (c % 36 / 6), cubeVal (c % 6))
  else
    let gray := 8 + (code - 232) * 10
    (gray, gray, gray)

/-- `Color::from_ansi256(code)`. -/
def Color.from_ansi256 (code : Nat) : Color := ⟨false, ansi256_to_rgb code⟩

/-- `Color::color_dist`: squared Euclidean distance between two RGB
triples, computed in `i32` and cast to `u32` (exact for channels `< 256`,
so modelled directly on `Int`). -/
def color_dist (r1 g1 b1 r2 g2 b2 : Nat) : Int :=
  ((r1 : Int) - r2) * ((r1 : Int) - r2) +
  ((g1 : Int) - g2) * ((g1 : Int) - g2) +
  ((b1 : Int) - b2) * ((b1 : Int) - b2)

/-- The closure `to_6` in `rgb_to_ansi256`: quantize one channel to a
cube ordinate: `v < 48 → 0`; `v < 115 → 1`; else `min ((v-35)/40) 5`. -/
def to_6 (v : Nat) : Nat :=
  if v < 48 then 0 else if v < 115 then 1 else min ((v - 35) / 40) 5

/-- The candidate cube index `16 + 36*r6 + 6*g6 + b6` of `rgb_to_ansi256`
(the `u8` additions cannot overflow since each ordinate is `≤ 5`). -/
def cubeCandidate (r g b : Nat) : Nat :=
  16 + 36 * to_6 r + 6 * to_6 g + to_6 b

/-- The candidate grey code of `rgb_to_ansi256`:
`avg = (r+g+b)/3` in `u16`; `gray_index` is `23` when `avg > 238`, else
`min ((avg - 3) / 10) 23` where the `u16` subtraction `avg - 3` WRAPS
modulo `2^16` when `avg < 3` (Rust release semantics; under debug
overflow checks it panics instead, see `grayIndexChecked`); finally
`232 + gray_index as u8` in `u8` arithmetic. -/
def grayCandidate (r g b : Nat) : Nat :=
  let avg := (r + g + b) / 3
  let gray_index := if 238 < avg then 23 else min ((avg + 65536 - 3) % 65536 / 10) 23
  (232 + gray_index % 256) % 256

/-- The grey-index computation of `rgb_to_ansi256` under Rust's checked
(debug) arithmetic: the `u16` subtraction `avg - 3` is an arithmetic
overflow when `avg < 3`, modelled as `none`. -/
def grayIndexChecked (r g b : Nat) : Option Nat :=
  let avg := (r + g + b) / 3
  if 238 < avg then some 23
  else if avg < 3 then none
  else some (min ((avg - 3) / 10) 23)

/-- Squared distance from an RGB triple to the palette entry of a code
(the `ansi256_to_rgb` + `color_dist` pairs in `rgb_to_ansi256`). -/
def distTo (r g b code : Nat) : Int :=
  color_dist r g b (ansi256_to_rgb code).1 (ansi256_to_rgb code).2.1
    (ansi256_to_rgb code).2.2

/-- `Color::rgb_to_ansi256(r, g, b)`: return the grey candidate if its
squared distance is strictly smaller, otherwise the cube candidate. -/
def rgb_to_ansi256 (r g b : Nat) : Nat :=
  if distTo r g b (grayCandidate r g b) < distTo r g b (cubeCandidate r g b) then
    grayCandidate r g b
  else
    cubeCandidate r g b

/-- `Color::as_ansi256(self)`: `None` for reset, else the nearest index. -/
def Color.as_ansi256 (c : Color) : Option Nat :=
  if c.reset then none
  else some (rgb_to_ansi256 c.rgb.1 c.rgb.2.1 c.rgb.2.2)

/-- Squared distance of one channel pair, the summand of `color_dist`. -/
def chDist (a w : Nat) : Int := ((a : Int) - w) * ((a : Int) - w)

/-- The grey index the code computes, as a function of the channel sum
`s = r + g + b` (`avg = s / 3`); agrees with the code whenever `avg ≥ 3`. -/
def greySel (s : Nat) : Nat :=
  if 238 < s / 3 then 23 else min ((s / 3 - 3) / 10) 23

/-- A colour that is a valid `u8` triple (the Rust type invariant). -/
def ColorValid (c : Color) : Prop :=
  c.rgb.1 < 256 ∧ c.rgb.2.1 < 256 ∧ c.rgb.2.2 < 256

/-! ## Cell codec (`TerminalChar` in `src/lib.rs`) -/

/-- `char::from_u32(code).is_some()`: a valid Unicode scalar value
(not a surrogate, at most `0x10FFFF`). -/
def isUnicodeScalar (n : Nat) : Bool :=
  n < 55296 || (57344 ≤ n && n < 1114112)

/-- The `TerminalChar` struct: a codepoint (Rust `char`, modelled as a
`Nat` that is a Unicode scalar value) plus optional colours. -/
structure TerminalChar where
  chr : Nat
  fg_color : Option Color
  bg_color : Option Color
deriving DecidableEq, Repr

/-- `TerminalChar::default()`: a space with no colours. -/
def TerminalChar.default : TerminalChar := ⟨32, none, none⟩

/-- A cell all of whose components satisfy the Rust type invariants:
`chr` is a Unicode scalar value and each colour is a `u8` triple. -/
def CellValid (t : TerminalChar) : Prop :=
  isUnicodeScalar t.chr = true ∧
  (∀ c, t.fg_color = some c → ColorValid c) ∧
  (∀ c, t.bg_color = some c → ColorValid c)

/-- A cell colour field that is `None` or a non-reset colour. -/
def PlainField (oc : Option Color) : Prop :=
  ∀ c, oc = some c → c.reset = false

/-- A cell with a Unicode-scalar codepoint and plain colour fields. -/
def CellPlain (t : TerminalChar) : Prop :=
  isUnicodeScalar t.chr = true ∧ PlainField t.fg_color ∧ PlainField t.bg_color

/-- `write_u32::<LittleEndian>`: four bytes, least significant first. -/
def le32 (n : Nat) : List Nat :=
  [n % 256, n / 256 % 256, n / 65536 % 256, n / 16777216 % 256]

/-- `write_u16::<LittleEndian>`: two bytes, least significant first. -/
def le16 (n : Nat) : List Nat := [n % 256, n / 256 % 256]

/-- One optional-colour field of `TerminalChar::write_to`: flag byte `1`
plus the RGB bytes when a non-reset colour is present, flag byte `0`
otherwise (a `Some(Reset)` emits `0`, same as `None`). -/
def writeColorField (oc : Option Color) : List Nat :=
  match oc with
  | some col => if col.reset = false then [1, col.rgb.1, col.rgb.2.1, col.rgb.2.2] else [0]
  | none => [0]

/-- `TerminalChar::write_to`: 4-byte little-endian codepoint, then the
foreground field, then the background field. -/
def TerminalChar.write_to (t : TerminalChar) : List Nat :=
  le32 t.chr ++ writeColorField t.fg_color ++ writeColorField t.bg_color

/-- `read_u8`: one byte off the stream, error on end of stream. -/
def readU8 (bs : List Nat) : Option (Nat × List Nat) :=
  match bs with
  | [] => none
  | x :: rest => some (x, rest)

/-- `read_u32::<LittleEndian>`: four bytes off the stream, recombined
least significant first. -/
def readU32 (bs : List Nat) : Option (Nat × List Nat) :=
  match bs with
  | b0 :: b1 :: b2 :: b3 :: rest =>
    some (b0 + 256 * b1 + 65536 * b2 + 16777216 * b3, rest)
  | _ => none

/-- One optional-colour field of `TerminalChar::read_from`: read the flag
byte; when it is `1` read three RGB bytes and build `Color::rgb`
(so `reset` is always `false`), otherwise the field is `None`. -/
def readColorField (bs : List Nat) : Option (Option Color × List Nat) :=
  match bs with
  | [] => none
  | flag :: rest =>
    if flag = 1 then
      match rest with
      | r8 :: g8 :: b8 :: rest2 => some (some (Color.mkRgb r8 g8 b8), rest2)
      | _ => none
    else
      some (none, rest)

/-- `TerminalChar::read_from`: read the 4-byte codepoint, reject values
that are not Unicode scalar values, then read the two colour fields. -/
def TerminalChar.read_from (bs : List Nat) : Option (TerminalChar × List Nat) :=
  match readU32 bs with
  | none => none
  | some (code, rest) =>
    if isUnicodeScalar code then
      match readColorField rest with
      | none => none
      | some (fg, rest1) =>
        match readColorField rest1 with
        | none => none
        | some (bg, rest2) => some (⟨code, fg, bg⟩, rest2)
    else none

/-! ## Sprite and video container (`src/lib.rs`) -/

/-- The `AsciiSprite` struct (`width`/`height` are `u16`). -/
structure AsciiSprite where
  width : Nat
  height : Nat
  pixels : List TerminalChar
deriving DecidableEq, Repr

/-- `AsciiSprite::new`: error when the pixel count differs from
`width * height` (computed in `usize`, exact here). -/
def AsciiSprite.new (w h : Nat) (pixels : List TerminalChar) : Option AsciiSprite :=
  if pixels.length ≠ w * h then none else some ⟨w, h, pixels⟩

/-- `AsciiSprite::write_to`: each pixel's encoding, in order. -/
def AsciiSprite.write_to (s : AsciiSprite) : List Nat :=
  (s.pixels.map TerminalChar.write_to).flatten

/-- The read loop of `AsciiSprite::read_from`: read `n` cells. -/
def readCells (n : Nat) (bs : List Nat) : Option (List TerminalChar × List Nat) :=
  match n with
  | 0 => some ([], bs)
  | n + 1 =>
    match TerminalChar.read_from bs with
    | none => none
    | some (c, rest) =>
      match readCells n rest with
      | none => none
      | some (cs, rest2) => some (c :: cs, rest2)

/-- `AsciiSprite::read_from`: read exactly `width * height` cells and
build the sprite with the supplied dimensions. -/
def AsciiSprite.read_from (w h : Nat) (bs : List Nat) :
    Option (AsciiSprite × List Nat) :=
  match readCells (w * h) bs with
  | none => none
  | some (pixels, rest) => some (⟨w, h, pixels⟩, rest)

/-- `AsciiSprite::as_grid`: materialize the flat row-major buffer into
`height` rows of `width` cells (`pixels[row * width + col]`; the Rust
index is in bounds under the sprite invariant, modelled by `getD`). -/
def AsciiSprite.as_grid (s : AsciiSprite) : List (List TerminalChar) :=
  (List.range s.height).map fun row =>
    (List.range s.width).map fun col =>
      s.pixels.getD (row * s.width + col) TerminalChar.default

/-- `AsciiSprite::get_char`: `None` when `x >= width || y >= height`,
else `pixels[y * width + x]`. -/
def AsciiSprite.get_char (s : AsciiSprite) (x y : Nat) : Option TerminalChar :=
  if s.width ≤ x ∨ s.height ≤ y then none
  else some (s.pixels.getD (y * s.width + x) TerminalChar.default)

/-- The `AsciiVideo` struct. -/
structure AsciiVideo where
  width : Nat
  height : Nat
  frames : List AsciiSprite
deriving DecidableEq, Repr

/-- `AsciiVideo::new`: error on the first frame whose dimensions differ
from the declared ones (result-wise: succeed iff every frame agrees). -/
def AsciiVideo.new (w h : Nat) (frames : List AsciiSprite) : Option AsciiVideo :=
  if ∀ f ∈ frames, f.width = w ∧ f.height = h then some ⟨w, h, frames⟩ else none

/-- `AsciiVideo::MAGIC`, the bytes of `"ASCV"`. -/
def videoMagic : List Nat := [65, 83, 67, 86]

/-- `AsciiVideo::write_to_file`, as the byte stream it produces: magic,
version `1`, `width` and `height` as `u16` little-endian, frame count as
`u32` little-endian (`frames.len() as u32` wraps modulo `2^32`), then
each frame's encoding back to back. -/
def AsciiVideo.write_to_file (v : AsciiVideo) : List Nat :=
  videoMagic ++ [1] ++ le16 v.width ++ le16 v.height ++
    le32 (v.frames.length % 4294967296) ++
    (v.frames.map AsciiSprite.write_to).flatten

/-- The frame-read loop of `AsciiVideo::read_from_file`. -/
def readFrames (n w h : Nat) (bs : List Nat) :
    Option (List AsciiSprite × List Nat) :=
  match n with
  | 0 => some ([], bs)
  | n + 1 =>
    match AsciiSprite.read_from w h bs with
    | none => none
    | some (f, rest) =>
      match readFrames n w h rest with
      | none => none
      | some (fs, rest2) => some (f :: fs, rest2)

/-- `AsciiVideo::read_from_file`, on the byte stream it consumes: check
the magic, the version, read `width`, `height`, `frame_count`, validate
`1 ≤ width, height ≤ 4096` and `frame_count ≤ 100000`, then read the
frames and funnel them through `AsciiVideo::new`. A truncated stream is
an error at the first missing byte. -/
def AsciiVideo.read_from_file (bs : List Nat) : Option AsciiVideo :=
  match bs with
  | m0 :: m1 :: m2 :: m3 :: rest =>
    if m0 = 65 ∧ m1 = 83 ∧ m2 = 67 ∧ m3 = 86 then
      match rest with
      | ver :: rest1 =>
        if ver = 1 then
          match rest1 with
          | w0 :: w1 :: h0 :: h1 :: c0 :: c1 :: c2 :: c3 :: rest2 =>
            let width := w0 + 256 * w1
            let height := h0 + 256 * h1
            let frame_count := c0 + 256 * c1 + 65536 * c2 + 16777216 * c3
            if width = 0 ∨ height = 0 ∨ 4096 < width ∨ 4096 < height then none
            else if 100000 < frame_count then none
            else
              match readFrames frame_count width height rest2 with
              | none => none
              | some (frames, _) => AsciiVideo.new width height frames
          | _ => none
        else none
      | [] => none
    else none
  | _ => none

/-! ## Theorems: colour quantization -/

set_option maxRecDepth 10000

/-- Every value of the channel quantizer `to_6` is a cube ordinate. -/
theorem to_6_le_five (v : Nat) : to_6 v ≤ 5 := by
  unfold to_6
  split
  · omega
  · split <;> omega

/-- The cube candidate is always a cube code. -/
theorem cubeCandidate_range (r g b : Nat) :
    16 ≤ cubeCandidate r g b ∧ cubeCandidate r g b ≤ 231 := by
  have hr := to_6_le_five r
  have hg := to_6_le_five g
  have hb := to_6_le_five b
  unfold cubeCandidate
  omega

/-- The grey candidate is always a greyscale-ramp code. -/
theorem grayCandidate_range (r g b : Nat) :
    232 ≤ grayCandidate r g b ∧ grayCandidate r g b ≤ 255 := by
  unfold grayCandidate
  dsimp only
  split <;> omega

/-- The returned index always lies in the cube/greyscale range. -/
theorem rgb_to_ansi256_range (r g b : Nat) :
    16 ≤ rgb_to_ansi256 r g b ∧ rgb_to_ansi256 r g b ≤ 255 := by
  have hc := cubeCandidate_range r g b
  have hgr := grayCandidate_range r g b
  unfold rgb_to_ansi256
  split <;> omega

/-- `greySel` is a greyscale level. -/
theorem greySel_lt (s : Nat) : greySel s < 24 := by
  unfold greySel
  split <;> omega

/-- When `avg ≥ 3` (no `u16` underflow) and the channels are bytes, the
grey candidate computed by the code is `232 + greySel (r + g + b)`. -/
theorem grayCandidate_eq (r g b : Nat) (hs : 9 ≤ r + g + b) :
    grayCandidate r g b = 232 + greySel (r + g + b) := by
  unfold grayCandidate greySel
  dsimp only
  split <;> omega

/-- Decoding a cube code recovers the three ordinate values. -/
theorem cube_decode : ∀ i < 6, ∀ j < 6, ∀ k < 6,
    ansi256_to_rgb (16 + 36 * i + 6 * j + k) = (cubeVal i, cubeVal j, cubeVal k) := by
  decide

/-- Decoding a greyscale code gives the constant triple `8 + i*10`. -/
theorem grey_decode : ∀ i < 24,
    ansi256_to_rgb (232 + i) = (8 + i * 10, 8 + i * 10, 8 + i * 10) := by
  decide

/-- Per channel, the ordinate chosen by `to_6` is at least as close to
the channel value as any other cube ordinate. -/
theorem cube_channel_opt : ∀ v < 256, ∀ l < 6,
    chDist v (cubeVal (to_6 v)) ≤ chDist v (cubeVal l) := by
  decide

/-- The grey level picked from the channel sum `s` minimizes the
sum-dependent part of the distance among all 24 grey levels
(stated over `Nat`; `9 ≤ s` rules out the underflow region). -/
theorem grey_sel_opt : ∀ s < 766, 9 ≤ s → ∀ i < 24,
    3 * (8 + greySel s * 10) * (8 + greySel s * 10) + 2 * (8 + i * 10) * s ≤
      3 * (8 + i * 10) * (8 + i * 10) + 2 * (8 + greySel s * 10) * s := by
  decide

/-- `color_dist` splits into the three channel distances. -/
theorem color_dist_split (r g b x y z : Nat) :
    color_dist r g b x y z = chDist r x + chDist g y + chDist b z := rfl

/-- Distance to a constant grey triple, in expanded form. -/
theorem grey_dist_eq (r g b v : Nat) :
    color_dist r g b v v v =
      (r : Int) * r + (g : Int) * g + (b : Int) * b + 3 * ((v : Int) * v) -
        2 * (v : Int) * ((r : Int) + (g : Int) + (b : Int)) := by
  unfold color_dist
  ring

/-- The returned index is at least as close as the cube candidate. -/
theorem chosen_le_cube (r g b : Nat) :
    distTo r g b (rgb_to_ansi256 r g b) ≤ distTo r g b (cubeCandidate r g b) := by
  unfold rgb_to_ansi256
  split
  · exact le_of_lt (by assumption)
  · exact le_refl _

/-- The returned index is at least as close as the grey candidate. -/
theorem chosen_le_gray (r g b : Nat) :
    distTo r g b (rgb_to_ansi256 r g b) ≤ distTo r g b (grayCandidate r g b) := by
  unfold rgb_to_ansi256
  split
  · exact le_refl _
  · exact le_of_not_lt (by assumption)

/-- The cube candidate is a nearest entry among all cube codes. -/
theorem cube_opt (r g b : Nat) (hr : r < 256) (hg : g < 256) (hb : b < 256)
    (c : Nat) (hc1 : 16 ≤ c) (hc2 : c ≤ 231) :
    distTo r g b (cubeCandidate r g b) ≤ distTo r g b c := by
  obtain ⟨i, j, k, hi, hj, hk, rfl⟩ :
      ∃ i j k, i < 6 ∧ j < 6 ∧ k < 6 ∧ c = 16 + 36 * i + 6 * j + k :=
    ⟨(c - 16) / 36, (c - 16) % 36 / 6, (c - 16) % 6,
      by omega, by omega, by omega, by omega⟩
  have hdc := cube_decode i hi j hj k hk
  have hdcand := cube_decode (to_6 r) (by have := to_6_le_five r; omega)
    (to_6 g) (by have := to_6_le_five g; omega)
    (to_6 b) (by have := to_6_le_five b; omega)
  have hcand : cubeCandidate r g b = 16 + 36 * to_6 r + 6 * to_6 g + to_6 b := rfl
  unfold distTo
  rw [hcand, hdcand, hdc]
  rw [color_dist_split, color_dist_split]
  exact add_le_add (add_le_add (cube_channel_opt r hr i hi)
    (cube_channel_opt g hg j hj)) (cube_channel_opt b hb k hk)

/-- When `avg ≥ 3`, the grey candidate is a nearest entry among all
greyscale codes. -/
theorem grey_opt (r g b : Nat) (hr : r < 256) (hg : g < 256) (hb : b < 256)
    (hs : 9 ≤ r + g + b) :
    ∀ i < 24, distTo r g b (grayCandidate r g b) ≤ distTo r g b (232 + i) := by
  intro i hi
  have hsel := greySel_lt (r + g + b)
  rw [grayCandidate_eq r g b hs]
  unfold distTo
  rw [grey_decode (greySel (r + g + b)) hsel, grey_decode i hi]
  rw [grey_dist_eq, grey_dist_eq]
  have key := grey_sel_opt (r + g + b) (by omega) hs i hi
  zify at key
  push_cast at key ⊢
  nlinarith [key]

/-- When the channel sum is at most 8 (`avg < 3`, the underflow region),
the cube candidate is still at least as close as every greyscale code. -/
theorem dark_opt (r g b : Nat) (hs : r + g + b ≤ 8) :
    ∀ i < 24, distTo r g b (cubeCandidate r g b) ≤ distTo r g b (232 + i) := by
  intro i hi
  have h16 : cubeCandidate r g b = 16 := by
    unfold cubeCandidate to_6
    split_ifs <;> omega
  rw [h16]
  unfold distTo
  have hd16 : ansi256_to_rgb 16 = (0, 0, 0) := by decide
  rw [hd16, grey_decode i hi]
  rw [grey_dist_eq, grey_dist_eq]
  dsimp only
  push_cast
  have hi0 : (0 : Int) ≤ (i : Int) := Int.natCast_nonneg i
  have hsum : (r : Int) + (g : Int) + (b : Int) ≤ 8 := by omega
  have hr0 : (0 : Int) ≤ (r : Int) + (g : Int) + (b : Int) := by positivity
  nlinarith [hi0, hsum, hr0]

/-- Claim C1, counterexample: the claim as stated quantifies the
nearest-neighbour search over ALL 256 palette entries, but the algorithm
never considers codes `0..=15`. At `rgb(192,192,192)` the palette entry
`7` is exactly the input (distance 0), yet the algorithm returns the
greyscale code `250`, whose entry `(188,188,188)` is strictly farther,
so `from_ansi256(to_ansi256(rgb))` is not the RGB of a nearest entry. -/
theorem claim_C1_cex :
    Color.as_ansi256 (Color.mkRgb 192 192 192) = some 250 ∧
    ansi256_to_rgb 7 = (192, 192, 192) ∧
    distTo 192 192 192 7 < distTo 192 192 192 250 := by
  decide

/-- Claim C1 (amended): for every RGB byte triple, the index returned by
`rgb_to_ansi256` achieves the minimum squared Euclidean distance that a
brute-force nearest-neighbour search over the 240 palette entries with
codes `16..=255` (the 6×6×6 cube and the greyscale ramp) achieves —
not over all 256 entries, since codes `0..=15` are never candidates. -/
theorem claim_C1 (r g b : Nat) (hr : r < 256) (hg : g < 256) (hb : b < 256) :
    ∃ k, Color.as_ansi256 (Color.mkRgb r g b) = some k ∧
      Color.from_ansi256 k = ⟨false, ansi256_to_rgb k⟩ ∧
      16 ≤ k ∧ k ≤ 255 ∧
      ∀ c, 16 ≤ c → c ≤ 255 → distTo r g b k ≤ distTo r g b c := by
  refine ⟨rgb_to_ansi256 r g b, rfl, rfl, (rgb_to_ansi256_range r g b).1,
    (rgb_to_ansi256_range r g b).2, ?_⟩
  intro c hc1 hc2
  rcases le_or_lt c 231 with h231 | h232
  · exact le_trans (chosen_le_cube r g b) (cube_opt r g b hr hg hb c hc1 h231)
  · obtain ⟨i, hi, rfl⟩ : ∃ i, i < 24 ∧ c = 232 + i := ⟨c - 232, by omega, by omega⟩
    rcases le_or_lt 9 (r + g + b) with hs | hs
    · exact le_trans (chosen_le_gray r g b) (grey_opt r g b hr hg hb hs i hi)
    · exact le_trans (chosen_le_cube r g b) (dark_opt r g b (by omega) i hi)

/-- Claim C1, witness: the amended theorem instantiated at a concrete
triple. -/
theorem claim_C1_witness :
    ∃ k, Color.as_ansi256 (Color.mkRgb 200 100 50) = some k ∧
      Color.from_ansi256 k = ⟨false, ansi256_to_rgb k⟩ ∧
      16 ≤ k ∧ k ≤ 255 ∧
      ∀ c, 16 ≤ c → c ≤ 255 → distTo 200 100 50 k ≤ distTo 200 100 50 c :=
  claim_C1 200 100 50 (by decide) (by decide) (by decide)

/-- Claim C4: the claim is right about the intent (`as_ansi256` should be
total on non-reset colours) but the code is wrong: the grey-candidate
computation performs the `u16` subtraction `avg - 3` unguarded, which for
`avg < 3` (e.g. `rgb(0,0,0)`, `avg = 0`) is an arithmetic underflow —
a panic under Rust's debug overflow checks (`grayIndexChecked` is that
semantics), and a wrap modulo `2^16` in release mode, which yields the
nonsensical grey candidate `255`; the final result `16` is still returned
in release mode only because the cube candidate wins the comparison. -/
theorem claim_C4_code_bug :
    grayIndexChecked 0 0 0 = none ∧
    grayCandidate 0 0 0 = 255 ∧
    rgb_to_ansi256 0 0 0 = 16 ∧
    Color.as_ansi256 (Color.mkRgb 0 0 0) = some 16 := by
  decide

/-- Claim C5, counterexample: at `rgb(4,4,4)` the grey candidate (`232`,
entry `(8,8,8)`) and the cube candidate (`16`, entry `(0,0,0)`) are at
the same squared distance 48, the two codes differ, and the algorithm
returns the CUBE candidate `16`, not the grey one — the code hands ties
to the cube candidate, contradicting the claim that grey wins ties. -/
theorem claim_C5_cex :
    distTo 4 4 4 (grayCandidate 4 4 4) = distTo 4 4 4 (cubeCandidate 4 4 4) ∧
    grayCandidate 4 4 4 = 232 ∧
    cubeCandidate 4 4 4 = 16 ∧
    rgb_to_ansi256 4 4 4 = 16 := by
  decide

/-- Claim C5 (amended): whenever the grey candidate's squared distance
EQUALS the cube candidate's, the cube candidate is the one returned (the
grey candidate is returned only when its distance is strictly smaller). -/
theorem claim_C5 (r g b : Nat)
    (h : distTo r g b (grayCandidate r g b) = distTo r g b (cubeCandidate r g b)) :
    rgb_to_ansi256 r g b = cubeCandidate r g b := by
  unfold rgb_to_ansi256
  rw [if_neg]
  rw [h]
  exact lt_irrefl _

/-- Claim C5, witness: the amended tie-break theorem at `rgb(4,4,4)`. -/
theorem claim_C5_witness : rgb_to_ansi256 4 4 4 = cubeCandidate 4 4 4 :=
  claim_C5 4 4 4 (by decide)

/-! ## Theorems: cell codec -/

/-- `None` is a plain colour field. -/
theorem plain_none : PlainField none := fun _ hc => nomatch hc

/-- A non-reset colour is a plain colour field. -/
theorem plain_some (col : Color) (h : col.reset = false) :
    PlainField (some col) :=
  fun _ hc => Option.some.inj hc ▸ h

/-- Reading back four little-endian bytes recovers any `u32` value. -/
theorem readU32_le32 (n : Nat) (h : n < 4294967296) (rest : List Nat) :
    readU32 (le32 n ++ rest) = some (n, rest) := by
  simp only [le32, List.cons_append, List.nil_append, readU32]
  have hn : n % 256 + 256 * (n / 256 % 256) + 65536 * (n / 65536 % 256) +
      16777216 * (n / 16777216 % 256) = n := by omega
  rw [hn]

/-- Reading back an encoded plain colour field recovers it exactly. -/
theorem readColorField_writeColorField (oc : Option Color) (h : PlainField oc)
    (rest : List Nat) :
    readColorField (writeColorField oc ++ rest) = some (oc, rest) := by
  cases oc with
  | none => simp [writeColorField, readColorField]
  | some col =>
    obtain ⟨res, crgb⟩ := col
    have hres : res = false := h _ rfl
    subst hres
    simp [writeColorField, readColorField, Color.mkRgb]

/-- Decoding after encoding is the identity on cells whose codepoint is a
Unicode scalar value and whose colour fields are plain, with any suffix. -/
theorem cell_roundtrip (t : TerminalChar) (rest : List Nat)
    (hchr : isUnicodeScalar t.chr = true)
    (hfg : PlainField t.fg_color) (hbg : PlainField t.bg_color) :
    TerminalChar.read_from (TerminalChar.write_to t ++ rest) = some (t, rest) := by
  have h32 : t.chr < 4294967296 := by
    unfold isUnicodeScalar at hchr
    simp only [Bool.or_eq_true, Bool.and_eq_true, decide_eq_true_eq] at hchr
    omega
  unfold TerminalChar.write_to TerminalChar.read_from
  rw [List.append_assoc, List.append_assoc]
  simp only [readU32_le32 t.chr h32, hchr, if_true,
    readColorField_writeColorField t.fg_color hfg,
    readColorField_writeColorField t.bg_color hbg]

/-- Claim C2: for every cell whose codepoint is a valid Unicode scalar
value and whose foreground and background are each `None` or a non-reset
RGB byte colour, decoding the encoding returns exactly the cell. -/
theorem claim_C2 (t : TerminalChar) (hchr : isUnicodeScalar t.chr = true)
    (hfg : PlainField t.fg_color) (hbg : PlainField t.bg_color)
    (_hfgv : ∀ c, t.fg_color = some c → ColorValid c)
    (_hbgv : ∀ c, t.bg_color = some c → ColorValid c) :
    TerminalChar.read_from (TerminalChar.write_to t) = some (t, []) := by
  have h := cell_roundtrip t [] hchr hfg hbg
  simpa using h

/-- Claim C2, witness: the round trip at a concrete coloured cell. -/
theorem claim_C2_witness :
    TerminalChar.read_from
        (TerminalChar.write_to ⟨955, some (Color.mkRgb 10 20 30), none⟩) =
      some (⟨955, some (Color.mkRgb 10 20 30), none⟩, []) :=
  claim_C2 ⟨955, some (Color.mkRgb 10 20 30), none⟩ (by decide)
    (plain_some _ rfl) plain_none
    (fun c hc => Option.some.inj hc ▸ ⟨by decide, by decide, by decide⟩)
    (fun _ hc => nomatch hc)

/-- An encoded colour field is 1 byte (absent) or 4 bytes (present). -/
theorem writeColorField_length (oc : Option Color) :
    (writeColorField oc).length = 1 ∨ (writeColorField oc).length = 4 := by
  unfold writeColorField
  cases oc with
  | none => simp
  | some col => cases h : col.reset <;> simp [h]

/-- Claim C6, counterexample: a colourless cell encodes to 6 bytes
(4 codepoint bytes + 1 foreground presence byte + 1 background presence
byte), not 5 — the claimed sizes 5/8/11 forget one of the two presence
bytes, so the length is never any of them for this cell. -/
theorem claim_C6_cex :
    (TerminalChar.write_to ⟨65, none, none⟩).length = 6 ∧
    ¬((TerminalChar.write_to ⟨65, none, none⟩).length = 5 ∨
      (TerminalChar.write_to ⟨65, none, none⟩).length = 8 ∨
      (TerminalChar.write_to ⟨65, none, none⟩).length = 11) := by
  decide

/-- Claim C6 (amended): the encoding of a cell is exactly the 4-byte
little-endian codepoint, then a presence byte that is `1` followed by the
3 RGB bytes when the colour is present and non-reset and `0` with no
further bytes otherwise, for foreground then background; consequently its
length is 6, 9 or 12 (not 5, 8 or 11); and a `Some(Reset)` colour encodes
exactly like an absent colour. -/
theorem claim_C6 (t : TerminalChar) :
    TerminalChar.write_to t =
      [t.chr % 256, t.chr / 256 % 256, t.chr / 65536 % 256,
        t.chr / 16777216 % 256] ++
      (match t.fg_color with
       | some c => if c.reset then [0] else [1, c.rgb.1, c.rgb.2.1, c.rgb.2.2]
       | none => [0]) ++
      (match t.bg_color with
       | some c => if c.reset then [0] else [1, c.rgb.1, c.rgb.2.1, c.rgb.2.2]
       | none => [0]) ∧
    ((TerminalChar.write_to t).length = 6 ∨
      (TerminalChar.write_to t).length = 9 ∨
      (TerminalChar.write_to t).length = 12) ∧
    (∀ c : Color, c.reset = true →
      TerminalChar.write_to ⟨t.chr, some c, t.bg_color⟩ =
        TerminalChar.write_to ⟨t.chr, none, t.bg_color⟩ ∧
      TerminalChar.write_to ⟨t.chr, t.fg_color, some c⟩ =
        TerminalChar.write_to ⟨t.chr, t.fg_color, none⟩) := by
  refine ⟨?_, ?_, ?_⟩
  · cases hf : t.fg_color with
    | none => cases hb : t.bg_color with
      | none => simp [TerminalChar.write_to, writeColorField, le32, hf, hb]
      | some cb =>
        cases hcb : cb.reset <;>
          simp [TerminalChar.write_to, writeColorField, le32, hf, hb, hcb]
    | some cf => cases hb : t.bg_color with
      | none =>
        cases hcf : cf.reset <;>
          simp [TerminalChar.write_to, writeColorField, le32, hf, hb, hcf]
      | some cb =>
        cases hcf : cf.reset <;> cases hcb : cb.reset <;>
          simp [TerminalChar.write_to, writeColorField, le32, hf, hb, hcf, hcb]
  · have h1 := writeColorField_length t.fg_color
    have h2 := writeColorField_length t.bg_color
    have hl : (TerminalChar.write_to t).length =
        4 + ((writeColorField t.fg_color).length +
          (writeColorField t.bg_color).length) := by
      simp [TerminalChar.write_to, le32]
      omega
    omega
  · intro c hc
    constructor <;> simp [TerminalChar.write_to, writeColorField, hc]

/-- Claim C6, witness: the reset-collapse part of the layout theorem at a
concrete cell. -/
theorem claim_C6_witness :
    TerminalChar.write_to ⟨65, some Color.resetColor, none⟩ =
      TerminalChar.write_to ⟨65, none, none⟩ :=
  ((claim_C6 ⟨65, none, none⟩).2.2 Color.resetColor rfl).1

/-- A successfully decoded colour field is plain: it is `None` or built
by `Color::rgb`, whose `reset` flag is `false`. -/
theorem readColorField_plain (bs : List Nat) (oc : Option Color)
    (rest : List Nat) (h : readColorField bs = some (oc, rest)) :
    PlainField oc := by
  unfold readColorField at h
  cases bs with
  | nil => exact absurd h (by simp)
  | cons flag rest0 =>
    dsimp only at h
    by_cases hf : flag = 1
    · rw [if_pos hf] at h
      rcases rest0 with _ | ⟨r8, _ | ⟨g8, _ | ⟨b8, rest2⟩⟩⟩ <;>
        simp only [Option.some.injEq, Prod.mk.injEq, reduceCtorEq] at h
      obtain ⟨rfl, rfl⟩ := h
      exact plain_some _ rfl
    · rw [if_neg hf] at h
      simp only [Option.some.injEq, Prod.mk.injEq] at h
      obtain ⟨rfl, rfl⟩ := h
      exact plain_none

/-- Inversion for the cell decoder: a successfully decoded cell has a
Unicode-scalar codepoint and plain colour fields. -/
theorem read_from_inv (bs : List Nat) (t : TerminalChar) (rest : List Nat)
    (h : TerminalChar.read_from bs = some (t, rest)) :
    isUnicodeScalar t.chr = true ∧ PlainField t.fg_color ∧ PlainField t.bg_color := by
  unfold TerminalChar.read_from at h
  cases hu : readU32 bs with
  | none => rw [hu] at h; exact absurd h (by simp)
  | some p =>
    obtain ⟨code, rest0⟩ := p
    rw [hu] at h
    dsimp only at h
    by_cases hs : isUnicodeScalar code = true
    · rw [if_pos hs] at h
      cases hfg : readColorField rest0 with
      | none => rw [hfg] at h; exact absurd h (by simp)
      | some q =>
        obtain ⟨fg, rest1⟩ := q
        rw [hfg] at h
        dsimp only at h
        cases hbg : readColorField rest1 with
        | none => rw [hbg] at h; exact absurd h (by simp)
        | some q2 =>
          obtain ⟨bg, rest2⟩ := q2
          rw [hbg] at h
          dsimp only at h
          simp only [Option.some.injEq, Prod.mk.injEq] at h
          obtain ⟨ht, -⟩ := h
          subst ht
          exact ⟨hs, readColorField_plain _ _ _ hfg, readColorField_plain _ _ _ hbg⟩
    · rw [if_neg hs] at h
      exact absurd h (by simp)

/-- Claim C10: every cell successfully produced by the decoder has
foreground and background that are `None` or carry `reset = false`
(decoding can never yield a `Some(Reset)` colour), and re-encoding then
re-decoding such a cell reproduces it — encode-after-decode is idempotent
on decodable byte streams. -/
theorem claim_C10 (bs : List Nat) (t : TerminalChar) (rest : List Nat)
    (h : TerminalChar.read_from bs = some (t, rest)) :
    PlainField t.fg_color ∧ PlainField t.bg_color ∧
    TerminalChar.read_from (TerminalChar.write_to t ++ rest) = some (t, rest) := by
  obtain ⟨hs, hfg, hbg⟩ := read_from_inv bs t rest h
  exact ⟨hfg, hbg, cell_roundtrip t rest hs hfg hbg⟩

/-- Claim C10, witness: the idempotency theorem at a concrete decodable
byte stream. -/
theorem claim_C10_witness :
    PlainField (some (Color.mkRgb 9 8 7)) ∧ PlainField (none : Option Color) ∧
    TerminalChar.read_from
        (TerminalChar.write_to ⟨65, some (Color.mkRgb 9 8 7), none⟩ ++ []) =
      some (⟨65, some (Color.mkRgb 9 8 7), none⟩, []) :=
  claim_C10 [65, 0, 0, 0, 1, 9, 8, 7, 0] ⟨65, some (Color.mkRgb 9 8 7), none⟩ []
    (by decide)

/-! ## Theorems: sprite -/

/-- Claim C8: `AsciiSprite::new` fails exactly when the pixel count
differs from `width * height`, and on success returns the arguments
unchanged. -/
theorem claim_C8 (w h : Nat) (pixels : List TerminalChar) :
    (AsciiSprite.new w h pixels = none ↔ pixels.length ≠ w * h) ∧
    ∀ s, AsciiSprite.new w h pixels = some s →
      s.width = w ∧ s.height = h ∧ s.pixels = pixels := by
  constructor
  · unfold AsciiSprite.new
    split <;> simp_all
  · intro s hs
    unfold AsciiSprite.new at hs
    split at hs
    · exact absurd hs (by simp)
    · injection hs with hs
      subst hs
      exact ⟨rfl, rfl, rfl⟩

/-- Claim C8, witness: a 2×2 sprite rejects 3 pixels; a 1×2 sprite with
2 pixels is returned unchanged. -/
theorem claim_C8_witness :
    AsciiSprite.new 2 2 (List.replicate 3 TerminalChar.default) = none ∧
    ((⟨1, 2, List.replicate 2 TerminalChar.default⟩ : AsciiSprite).width = 1 ∧
      (⟨1, 2, List.replicate 2 TerminalChar.default⟩ : AsciiSprite).height = 2 ∧
      (⟨1, 2, List.replicate 2 TerminalChar.default⟩ : AsciiSprite).pixels =
        List.replicate 2 TerminalChar.default) :=
  ⟨(claim_C8 2 2 (List.replicate 3 TerminalChar.default)).1.mpr (by decide),
    (claim_C8 1 2 (List.replicate 2 TerminalChar.default)).2
      ⟨1, 2, List.replicate 2 TerminalChar.default⟩ (by decide)⟩

/-- Claim C9: for a sprite satisfying the pixel-count invariant,
`as_grid` has `height` rows of `width` cells, the grid entry at
`(x, y)` and `get_char(x, y)` both equal `pixels[y*width + x]` for
in-range coordinates, and `get_char` is `None` exactly when
`x ≥ width` or `y ≥ height`. -/
theorem claim_C9 (s : AsciiSprite)
    (_hlen : s.pixels.length = s.width * s.height) :
    s.as_grid.length = s.height ∧
    (∀ row ∈ s.as_grid, row.length = s.width) ∧
    (∀ x y, x < s.width → y < s.height →
      (s.as_grid.getD y []).getD x TerminalChar.default =
        s.pixels.getD (y * s.width + x) TerminalChar.default ∧
      s.get_char x y =
        some (s.pixels.getD (y * s.width + x) TerminalChar.default)) ∧
    (∀ x y, s.get_char x y = none ↔ (s.width ≤ x ∨ s.height ≤ y)) := by
  refine ⟨?_, ?_, ?_, ?_⟩
  · simp [AsciiSprite.as_grid]
  · intro row hrow
    simp only [AsciiSprite.as_grid, List.mem_map, List.mem_range] at hrow
    obtain ⟨a, -, rfl⟩ := hrow
    simp
  · intro x y hx hy
    constructor
    · simp [AsciiSprite.as_grid, List.getD_eq_getElem?_getD, List.getElem?_map,
        List.getElem?_range, hx, hy]
    · unfold AsciiSprite.get_char
      rw [if_neg (by omega)]
  · intro x y
    unfold AsciiSprite.get_char
    split
    · simp [*]
    · rename_i hcond
      simp [hcond]

/-- Claim C9, witness: a concrete 1×1 sprite, in-range and out-of-range
lookups. -/
theorem claim_C9_witness :
    (⟨1, 1, [⟨97, none, none⟩]⟩ : AsciiSprite).get_char 0 0 =
      some (([⟨97, none, none⟩] : List TerminalChar).getD (0 * 1 + 0)
        TerminalChar.default) ∧
    ((⟨1, 1, [⟨97, none, none⟩]⟩ : AsciiSprite).get_char 1 0 = none ↔
      (1 ≤ 1 ∨ 1 ≤ 0)) :=
  ⟨(((claim_C9 ⟨1, 1, [⟨97, none, none⟩]⟩ (by decide)).2.2.1 0 0
      (by decide) (by decide)).2),
    ((claim_C9 ⟨1, 1, [⟨97, none, none⟩]⟩ (by decide)).2.2.2 1 0)⟩

/-! ## Theorems: video container -/

/-- Reading `n` cells back from `n` encoded plain cells recovers them. -/
theorem readCells_append (cells : List TerminalChar) (rest : List Nat)
    (hv : ∀ t ∈ cells, CellPlain t) :
    readCells cells.length ((cells.map TerminalChar.write_to).flatten ++ rest) =
      some (cells, rest) := by
  induction cells with
  | nil => simp [readCells]
  | cons c cs ih =>
    have hc : CellPlain c := hv c (List.mem_cons_self c cs)
    have hcs : ∀ t ∈ cs, CellPlain t := fun t ht => hv t (List.mem_cons_of_mem c ht)
    simp only [List.map_cons, List.flatten_cons, List.length_cons,
      List.append_assoc]
    simp only [readCells, cell_roundtrip c _ hc.1 hc.2.1 hc.2.2, ih hcs]

/-- Reading a sprite back from its encoding (with the dimensions passed
externally, as the container does) recovers it. -/
theorem sprite_roundtrip (w h : Nat) (f : AsciiSprite) (rest : List Nat)
    (hfw : f.width = w) (hfh : f.height = h)
    (hlen : f.pixels.length = w * h)
    (hv : ∀ t ∈ f.pixels, CellPlain t) :
    AsciiSprite.read_from w h (AsciiSprite.write_to f ++ rest) = some (f, rest) := by
  subst hfw
  subst hfh
  unfold AsciiSprite.read_from AsciiSprite.write_to
  rw [← hlen]
  simp only [readCells_append f.pixels rest hv]

/-- Reading `n` frames back from `n` encoded well-formed frames recovers
them. -/
theorem readFrames_append (frames : List AsciiSprite) (w h : Nat)
    (rest : List Nat)
    (hf : ∀ f ∈ frames, f.width = w ∧ f.height = h ∧
      f.pixels.length = w * h ∧ ∀ t ∈ f.pixels, CellPlain t) :
    readFrames frames.length w h
        ((frames.map AsciiSprite.write_to).flatten ++ rest) =
      some (frames, rest) := by
  induction frames with
  | nil => simp [readFrames]
  | cons f fs ih =>
    have hf1 := hf f (List.mem_cons_self f fs)
    have hfs : ∀ g ∈ fs, g.width = w ∧ g.height = h ∧
        g.pixels.length = w * h ∧ ∀ t ∈ g.pixels, CellPlain t :=
      fun g hg => hf g (List.mem_cons_of_mem f hg)
    simp only [List.map_cons, List.flatten_cons, List.length_cons,
      List.append_assoc]
    simp only [readFrames,
      sprite_roundtrip w h f _ hf1.1 hf1.2.1 hf1.2.2.1 hf1.2.2.2, ih hfs]

/-- Claim C3: for every video whose dimensions are in `1..=4096`, whose
frame count is at most `100000`, whose frames all carry the video's
dimensions and the pixel-count invariant, and whose cells are valid
(scalar codepoints; colours absent or non-reset byte triples), reading
back the produced byte stream yields a structurally equal video. -/
theorem claim_C3 (v : AsciiVideo)
    (hw1 : 1 ≤ v.width) (hw2 : v.width ≤ 4096)
    (hh1 : 1 ≤ v.height) (hh2 : v.height ≤ 4096)
    (hfc : v.frames.length ≤ 100000)
    (hfr : ∀ f ∈ v.frames, f.width = v.width ∧ f.height = v.height ∧
      f.pixels.length = v.width * v.height ∧ ∀ t ∈ f.pixels, CellPlain t) :
    AsciiVideo.read_from_file (AsciiVideo.write_to_file v) = some v := by
  obtain ⟨w, h, frames⟩ := v
  dsimp only at hw1 hw2 hh1 hh2 hfc hfr
  have hcnt : frames.length % 4294967296 = frames.length := by omega
  simp only [AsciiVideo.write_to_file, videoMagic, le16, le32, hcnt,
    List.cons_append, List.nil_append, List.append_assoc]
  unfold AsciiVideo.read_from_file
  dsimp only
  rw [if_pos ⟨rfl, rfl, rfl, rfl⟩, if_pos rfl]
  have hwrec : w % 256 + 256 * (w / 256 % 256) = w := by omega
  have hhrec : h % 256 + 256 * (h / 256 % 256) = h := by omega
  have hcrec : frames.length % 256 + 256 * (frames.length / 256 % 256) +
      65536 * (frames.length / 65536 % 256) +
      16777216 * (frames.length / 16777216 % 256) = frames.length := by omega
  simp only [hwrec, hhrec, hcrec]
  rw [if_neg (by omega), if_neg (by omega)]
  have hbody : ((frames.map AsciiSprite.write_to).flatten : List Nat) =
      (frames.map AsciiSprite.write_to).flatten ++ [] := (List.append_nil _).symm
  rw [hbody, readFrames_append frames w h [] hfr]
  unfold AsciiVideo.new
  dsimp only
  rw [if_pos (fun f hf => ⟨(hfr f hf).1, (hfr f hf).2.1⟩)]

/-- Claim C3, witness: a concrete 1×1 single-frame video round-trips. -/
theorem claim_C3_witness :
    AsciiVideo.read_from_file
        (AsciiVideo.write_to_file
          ⟨1, 1, [⟨1, 1, [⟨88, some (Color.mkRgb 1 2 3), none⟩]⟩]⟩) =
      some ⟨1, 1, [⟨1, 1, [⟨88, some (Color.mkRgb 1 2 3), none⟩]⟩]⟩ :=
  claim_C3 ⟨1, 1, [⟨1, 1, [⟨88, some (Color.mkRgb 1 2 3), none⟩]⟩]⟩
    (by decide) (by decide) (by decide) (by decide) (by decide)
    (by
      intro f hf
      simp only [List.mem_singleton] at hf
      subst hf
      refine ⟨rfl, rfl, rfl, ?_⟩
      intro t ht
      simp only [List.mem_singleton] at ht
      subst ht
      exact ⟨by decide, plain_some _ rfl, plain_none⟩)

/-- Claim C7: `read_from_file` returns an error on every byte stream
whose 13-byte header is invalid — truncated header, wrong magic, version
different from 1, width or height zero or above 4096, or frame count
above 100000 — whatever bytes follow the header (so no frame is decoded
and no frame storage is needed: the result is `none` for every tail). -/
theorem claim_C7 (bs : List Nat)
    (hbad : bs.length < 13 ∨ bs.take 4 ≠ [65, 83, 67, 86] ∨ bs.getD 4 0 ≠ 1 ∨
      bs.getD 5 0 + 256 * bs.getD 6 0 = 0 ∨
      4096 < bs.getD 5 0 + 256 * bs.getD 6 0 ∨
      bs.getD 7 0 + 256 * bs.getD 8 0 = 0 ∨
      4096 < bs.getD 7 0 + 256 * bs.getD 8 0 ∨
      100000 < bs.getD 9 0 + 256 * bs.getD 10 0 + 65536 * bs.getD 11 0 +
        16777216 * bs.getD 12 0) :
    AsciiVideo.read_from_file bs = none := by
  rcases bs with _ | ⟨b0, _ | ⟨b1, _ | ⟨b2, _ | ⟨b3, _ | ⟨b4, _ | ⟨b5, _ |
    ⟨b6, _ | ⟨b7, _ | ⟨b8, _ | ⟨b9, _ | ⟨b10, _ | ⟨b11, _ | ⟨b12, tl⟩⟩⟩⟩⟩⟩⟩⟩⟩⟩⟩⟩⟩
  all_goals try (solve | simp [AsciiVideo.read_from_file])
  unfold AsciiVideo.read_from_file
  dsimp only
  by_cases h1 : b0 = 65 ∧ b1 = 83 ∧ b2 = 67 ∧ b3 = 86
  · rw [if_pos h1]
    by_cases h2 : b4 = 1
    · rw [if_pos h2]
      by_cases h3 : b5 + 256 * b6 = 0 ∨ b7 + 256 * b8 = 0 ∨
          4096 < b5 + 256 * b6 ∨ 4096 < b7 + 256 * b8
      · rw [if_pos h3]
      · rw [if_neg h3]
        by_cases h4 : 100000 < b9 + 256 * b10 + 65536 * b11 + 16777216 * b12
        · rw [if_pos h4]
        · exfalso
          obtain ⟨h65, h83, h67, h86⟩ := h1
          subst h65
          subst h83
          subst h67
          subst h86
          subst h2
          push_neg at h3
          rcases hbad with hb | hb | hb | hb | hb | hb | hb | hb
          · simp only [List.length_cons] at hb
            omega
          · simp at hb
          · simp [List.getD] at hb
          · simp [List.getD] at hb
            omega
          · simp [List.getD] at hb
            omega
          · simp [List.getD] at hb
            omega
          · simp [List.getD] at hb
            omega
          · simp [List.getD] at hb
            omega
    · rw [if_neg h2]
  · rw [if_neg h1]

/-- Claim C7, witness: a 13-byte header with version 2 is rejected. -/
theorem claim_C7_witness :
    AsciiVideo.read_from_file [65, 83, 67, 86, 2, 1, 0, 1, 0, 1, 0, 0, 0] =
      none :=
  claim_C7 [65, 83, 67, 86, 2, 1, 0, 1, 0, 1, 0, 0, 0]
    (Or.inr (Or.inr (Or.inl (by decide))))

end AsciiAssets
